import Mathlib

/-!
# RTAI sample of the IgH EtherCAT master: cyclic task, lock callbacks, module lifecycle

Shallow embedding of `examples/rtai/rtai_sample.c`.

* The module-level variables of the C file are the fields of `Globals`.
* Every call the code makes to RTAI, to the EtherCAT master or to the kernel is
  recorded, in program order, as an `Op` in a call trace; values the code obtains
  from such a call (clock readings, return codes, the sampled master status) are
  inputs of the embedded function and are stored in the recorded `Op`.
* The semaphore `master_sem` lives inside RTAI.  Its behaviour is given by
  `sem_step` (counting semaphore: a wait proceeds only on a positive count).
* Machine integers are `Nat`/`Int`; the two places where the width matters
  (`cycles_t` subtraction, `unsigned int` arithmetic of `t_critical`) reduce
  modulo `2 ^ w` explicitly, the width being a parameter because both types are
  declared in kernel headers.
-/

namespace RtaiSample

/-! ## Constants -/

/-- RTAI task frequency in Hz (`#define FREQUENCY 2000`). -/
def FREQUENCY : Nat := 2000

/-- Inhibit margin (`#define INHIBIT_TIME 20`). -/
def INHIBIT_TIME : Nat := 20

/-- Timer period in nanoseconds (`#define TIMERTICKS (1000000000 / FREQUENCY)`). -/
def TIMERTICKS : Nat := 1000000000 / FREQUENCY

/-! ## Data model -/

/-- Master status record `ec_master_status_t`: the three fields the sample reads. -/
structure ec_master_status_t where
  bus_status : Int
  bus_tainted : Nat
  slaves_responding : Nat
deriving DecidableEq, Repr

/-- Log lines written with `printk`, one constructor per format string of the file. -/
inductive Msg where
  | starting
  | request_master_failed
  | creating_domain
  | domain_creation_failed
  | registering_pdos
  | pdo_registration_failed
  | activating_master
  | activate_failed
  | starting_thread
  | timer_started
  | task_init_failed
  | task_run_failed
  | init_done
  | unloading
  | stopped
  | bus_status_changed (v : Int)
  | tainted_changed (v : Nat)
  | slaves_responding_changed (v : Nat)
deriving DecidableEq, Repr

/-- External calls made by the file, each with the values observed at the call. -/
inductive Op where
  | get_cycles (now : Nat)
  | rt_sem_wait
  | rt_sem_signal
  | ecrt_master_receive
  | ecrt_domain_process
  | EC_WRITE_U8 (v : Nat)
  | ecrt_domain_queue
  | ecrt_master_send
  | ecrt_master_get_status (st : ec_master_status_t)
  | printk (m : Msg)
  | rt_task_wait_period
  | rt_sem_init (value : Int)
  | ecrt_request_master (index : Nat) (result : Option Nat)
  | ecrt_master_callbacks
  | ecrt_master_create_domain (result : Option Nat)
  | ecrt_domain_register_pdo_list (ret : Int)
  | ecrt_master_activate (ret : Int)
  | nano2count (ns : Nat) (ret : Int)
  | start_rt_timer (requested : Int) (ret : Int)
  | rt_task_init (ret : Int)
  | rt_get_time (ret : Int)
  | rt_task_make_periodic (start : Int) (period : Int) (ret : Int)
  | rt_task_delete
  | stop_rt_timer
  | ecrt_release_master
  | rt_sem_delete
deriving DecidableEq, Repr

/-- Module-level variables of the file (`static` data, including the two
function-local statics of `run`) and the process-data byte behind `r_dig_out`. -/
structure Globals where
  t_last_cycle : Nat
  t_critical : Nat
  master : Option Nat
  domain1 : Option Nat
  master_status : ec_master_status_t
  old_status : ec_master_status_t
  blink : Nat
  counter : Nat
  dig_out : Nat
deriving DecidableEq, Repr

/-- Zero-initialised status record (`old_status = {}`). -/
def status_zero : ec_master_status_t := ⟨0, 0, 0⟩

/-- Values of the statics when the module is loaded. -/
def Globals.initial : Globals :=
  ⟨0, 0, none, none, status_zero, status_zero, 0, 0, 0⟩

/-! ## The cyclic task `run` -/

/-- Lines 113-131 of `run`: query the master status under the lock, report every
field that differs from `old_status`, then overwrite `old_status`. -/
def sample_status (st : ec_master_status_t) (g : Globals) : Globals × List Op :=
  let g1 := { g with master_status := st }
  let tr0 := [Op.rt_sem_wait, Op.ecrt_master_get_status st, Op.rt_sem_signal]
  let tr1 :=
    if g1.master_status.bus_status ≠ g1.old_status.bus_status then
      [Op.printk (Msg.bus_status_changed g1.master_status.bus_status)]
    else []
  let tr2 :=
    if g1.master_status.bus_tainted ≠ g1.old_status.bus_tainted then
      [Op.printk (Msg.tainted_changed g1.master_status.bus_tainted)]
    else []
  let tr3 :=
    if g1.master_status.slaves_responding ≠ g1.old_status.slaves_responding then
      [Op.printk (Msg.slaves_responding_changed g1.master_status.slaves_responding)]
    else []
  ({ g1 with old_status := g1.master_status }, tr0 ++ tr1 ++ tr2 ++ tr3)

/-- One pass through the body of `while (1)` in `run` (lines 91-134).
`now` is the value returned by `get_cycles`, `st` the status that
`ecrt_master_get_status` delivers if this pass samples. -/
def run_iteration (now : Nat) (st : ec_master_status_t) (g : Globals) :
    Globals × List Op :=
  let g1 := { g with t_last_cycle := now }
  let recv := [Op.get_cycles now, Op.rt_sem_wait, Op.ecrt_master_receive,
    Op.ecrt_domain_process, Op.rt_sem_signal]
  let v : Nat := if g1.blink ≠ 0 then 0x0F else 0x00
  let g2 := { g1 with dig_out := v }
  let send := [Op.EC_WRITE_U8 v, Op.rt_sem_wait, Op.ecrt_domain_queue,
    Op.ecrt_master_send, Op.rt_sem_signal]
  if g2.counter ≠ 0 then
    ({ g2 with counter := g2.counter - 1 }, recv ++ send ++ [Op.rt_task_wait_period])
  else
    let g3 := { g2 with counter := FREQUENCY, blink := if g2.blink = 0 then 1 else 0 }
    let r := sample_status st g3
    (r.1, recv ++ send ++ r.2 ++ [Op.rt_task_wait_period])

/-- The first `n` passes of the loop of `run`; pass `k` reads the clock value
`(inp k).1` and, if it samples, the status `(inp k).2`.  Returns the globals after
the passes and the trace of each pass. -/
def run_loop (inp : Nat → Nat × ec_master_status_t) :
    Nat → Globals → Globals × List (List Op)
  | 0, g => (g, [])
  | n + 1, g =>
    let r := run_loop inp n g
    let it := run_iteration (inp n).1 (inp n).2 r.1
    (it.1, r.2 ++ [it.2])

/-! ## The lock callbacks -/

/-- The `cycles_t` difference `now - last`, reduced modulo `2 ^ w`. -/
def elapsed (w : Nat) (now last : Nat) : Nat :=
  (((now : Int) - (last : Int)) % (2 : Int) ^ w).toNat

/-- The callback `request_lock`: returns the C return value, the globals after the
call and the calls made.  `w` is the bit width of `cycles_t`, `now` the value
returned by `get_cycles`. -/
def request_lock (w : Nat) (now : Nat) (g : Globals) : Int × Globals × List Op :=
  if elapsed w now g.t_last_cycle > g.t_critical then
    (-1, g, [Op.get_cycles now])
  else
    (0, g, [Op.get_cycles now, Op.rt_sem_wait])

/-- The callback `release_lock`. -/
def release_lock (g : Globals) : Globals × List Op :=
  (g, [Op.rt_sem_signal])

/-! ## Semaphore semantics -/

/-- Effect of one call on the count of `master_sem`; `none` when the caller cannot
proceed (a wait on a count that is not positive).  This is the contract of the
RTAI counting semaphore that `rt_sem_init` creates: `rt_sem_wait` returns only
after taking one unit, `rt_sem_signal` gives one unit back. -/
def sem_step (count : Int) : Op → Option Int
  | Op.rt_sem_init v => some v
  | Op.rt_sem_wait => if 0 < count then some (count - 1) else none
  | Op.rt_sem_signal => some (count + 1)
  | _ => some count

/-- Run a trace against the semaphore with no other context interfering. -/
def sem_exec (count : Int) : List Op → Option Int
  | [] => some count
  | op :: rest =>
    match sem_step count op with
    | some c => sem_exec c rest
    | none => none

/-- Whether an operation is one of the two semaphore operations. -/
def is_sem_op : Op → Bool
  | Op.rt_sem_wait => true
  | Op.rt_sem_signal => true
  | _ => false

/-- The semaphore operations of a trace, in order. -/
def sem_ops (tr : List Op) : List Op := tr.filter is_sem_op

/-- Lock ownership of one execution context along its own trace: starting from
`holding`, a wait is only legal when the context does not hold the lock and makes
it the holder, a signal is only legal for the holder and ends the holding.
`none` reports a wait while holding, a signal without holding, or a context that
re-initialises or deletes the semaphore it is using. -/
def hold_after (holding : Bool) : List Op → Option Bool
  | [] => some holding
  | Op.rt_sem_wait :: rest => if holding then none else hold_after true rest
  | Op.rt_sem_signal :: rest => if holding then hold_after false rest else none
  | Op.rt_sem_init _ :: _ => none
  | Op.rt_sem_delete :: _ => none
  | _ :: rest => hold_after holding rest

/-! ## Module initialisation and removal -/

/-- Values delivered to `init_mod` by the kernel, RTAI and the EtherCAT master:
the clock rate and the result of every call whose result the function uses. -/
structure InitEnv where
  cpu_khz : Nat
  master : Option Nat
  domain : Option Nat
  pdo_ret : Int
  activate_ret : Int
  requested_ticks : Int
  tick_period : Int
  task_init_ret : Int
  now : Int
  periodic_ret : Int
deriving DecidableEq, Repr

/-- The term `cpu_khz * 1000 / FREQUENCY` in arithmetic of `uw` bits: the length of
one cycle in clock ticks. -/
def cycle_ticks (uw : Nat) (cpu_khz : Nat) : Nat :=
  (cpu_khz * 1000 % 2 ^ uw) / FREQUENCY

/-- The term `cpu_khz * INHIBIT_TIME / 1000` in arithmetic of `uw` bits. -/
def inhibit_ticks (uw : Nat) (cpu_khz : Nat) : Nat :=
  (cpu_khz * INHIBIT_TIME % 2 ^ uw) / 1000

/-- Line 167: `cpu_khz * 1000 / FREQUENCY - cpu_khz * INHIBIT_TIME / 1000`, the
subtraction wrapping modulo `2 ^ uw`. -/
def t_critical_init (uw : Nat) (cpu_khz : Nat) : Nat :=
  (((cycle_ticks uw cpu_khz : Int) - (inhibit_ticks uw cpu_khz : Int)) % (2 : Int) ^ uw).toNat

/-- Code after label `out_return`. -/
def out_return : List Op := [Op.rt_sem_delete]

/-- Code after label `out_release_master` (falls through to `out_return`). -/
def out_release_master : List Op := Op.ecrt_release_master :: out_return

/-- Code after label `out_stop_timer` (falls through). -/
def out_stop_timer : List Op := Op.stop_rt_timer :: out_release_master

/-- Code after label `out_stop_task` (falls through). -/
def out_stop_task : List Op := Op.rt_task_delete :: out_stop_timer

/-- The function `init_mod`: return value, globals afterwards, calls made.
`uw` is the bit width of the `unsigned int` arithmetic of line 167. -/
def init_mod (uw : Nat) (env : InitEnv) (g : Globals) : Int × Globals × List Op :=
  let tr0 := [Op.printk Msg.starting, Op.rt_sem_init 1]
  let g1 := { g with t_critical := t_critical_init uw env.cpu_khz }
  let g2 := { g1 with master := env.master }
  let tr1 := tr0 ++ [Op.ecrt_request_master 0 env.master]
  if g2.master.isNone then
    (-1, g2, tr1 ++ [Op.printk Msg.request_master_failed] ++ out_return)
  else
  let tr2 := tr1 ++ [Op.ecrt_master_callbacks, Op.printk Msg.creating_domain,
    Op.ecrt_master_create_domain env.domain]
  let g3 := { g2 with domain1 := env.domain }
  if g3.domain1.isNone then
    (-1, g3, tr2 ++ [Op.printk Msg.domain_creation_failed] ++ out_release_master)
  else
  let tr3 := tr2 ++ [Op.printk Msg.registering_pdos,
    Op.ecrt_domain_register_pdo_list env.pdo_ret]
  if env.pdo_ret ≠ 0 then
    (-1, g3, tr3 ++ [Op.printk Msg.pdo_registration_failed] ++ out_release_master)
  else
  let tr4 := tr3 ++ [Op.printk Msg.activating_master,
    Op.ecrt_master_activate env.activate_ret]
  if env.activate_ret ≠ 0 then
    (-1, g3, tr4 ++ [Op.printk Msg.activate_failed] ++ out_release_master)
  else
  let tr5 := tr4 ++ [Op.printk Msg.starting_thread,
    Op.nano2count TIMERTICKS env.requested_ticks,
    Op.start_rt_timer env.requested_ticks env.tick_period,
    Op.printk Msg.timer_started,
    Op.rt_task_init env.task_init_ret]
  if env.task_init_ret ≠ 0 then
    (-1, g3, tr5 ++ [Op.printk Msg.task_init_failed] ++ out_stop_timer)
  else
  let tr6 := tr5 ++ [Op.rt_get_time env.now,
    Op.rt_task_make_periodic (env.now + env.tick_period) env.tick_period env.periodic_ret]
  if env.periodic_ret ≠ 0 then
    (-1, g3, tr6 ++ [Op.printk Msg.task_run_failed] ++ out_stop_task)
  else
    (0, g3, tr6 ++ [Op.printk Msg.init_done])

/-- The function `cleanup_mod`. -/
def cleanup_mod (g : Globals) : Globals × List Op :=
  (g, [Op.printk Msg.unloading, Op.rt_task_delete, Op.stop_rt_timer,
    Op.ecrt_release_master, Op.rt_sem_delete, Op.printk Msg.stopped])

/-! ## Resource bookkeeping along a call trace -/

/-- Resources the module acquires. -/
inductive Resource where
  | lock
  | master
  | domain
  | timer
  | task
deriving DecidableEq, Repr

/-- Bookkeeping of a trace: resources currently held (newest first), all
acquisitions in order, all releases in order. -/
structure Ledger where
  live : List Resource
  acquired : List Resource
  released : List Resource
deriving DecidableEq, Repr

/-- The empty ledger. -/
def Ledger.empty : Ledger := ⟨[], [], []⟩

/-- Record an acquisition. -/
def Ledger.acquire (l : Ledger) (r : Resource) : Ledger :=
  ⟨r :: l.live, l.acquired ++ [r], l.released⟩

/-- Record the release of `r`; only the newest live resource may be released. -/
def Ledger.release (l : Ledger) (r : Resource) : Option Ledger :=
  match l.live with
  | top :: rest => if top = r then some ⟨rest, l.acquired, l.released ++ [r]⟩ else none
  | [] => none

/-- Modelled from the spec: the body of `ecrt_release_master`, which is not part of
the file.  The process-data domain is owned by the bus master and the master
interface has no release call for a domain, so releasing the master handle gives
up the domain created through it, if there is one, and then the handle itself. -/
def ecrt_release_master_effect (l : Ledger) : Option Ledger :=
  match l.live with
  | Resource.domain :: _ =>
    match l.release Resource.domain with
    | some l1 => l1.release Resource.master
    | none => none
  | _ => l.release Resource.master

/-- Effect of one call on the ledger.  A call that failed acquires nothing; `none`
reports a release that is out of order or of something not held.  With
`dom = false` only the resources for which the file itself makes a release call
are tracked (lock, master handle, timer, task); with `dom = true` the domain is
tracked as well and `ecrt_release_master` acts as `ecrt_release_master_effect`. -/
def ledger_step (dom : Bool) (l : Ledger) : Op → Option Ledger
  | Op.rt_sem_init _ => some (l.acquire Resource.lock)
  | Op.ecrt_request_master _ (some _) => some (l.acquire Resource.master)
  | Op.ecrt_master_create_domain (some _) =>
    if dom then some (l.acquire Resource.domain) else some l
  | Op.start_rt_timer _ _ => some (l.acquire Resource.timer)
  | Op.rt_task_init ret => if ret = 0 then some (l.acquire Resource.task) else some l
  | Op.rt_task_delete => l.release Resource.task
  | Op.stop_rt_timer => l.release Resource.timer
  | Op.ecrt_release_master =>
    if dom then ecrt_release_master_effect l else l.release Resource.master
  | Op.rt_sem_delete => l.release Resource.lock
  | _ => some l

/-- Bookkeeping of a whole trace. -/
def ledger_run (dom : Bool) (l : Ledger) : List Op → Option Ledger
  | [] => some l
  | op :: rest =>
    match ledger_step dom l op with
    | some l1 => ledger_run dom l1 rest
    | none => none

/-- The initial count a call gives to the semaphore, if the call is `rt_sem_init`. -/
def sem_init_value : Op → Option Int
  | Op.rt_sem_init v => some v
  | _ => none

/-- Whether a call is `rt_task_init`. -/
def is_task_init : Op → Bool
  | Op.rt_task_init _ => true
  | _ => false

/-- Position, among the six steps of `init_mod` that can fail, of the step a call
performs. -/
def fallible_step : Op → Option Nat
  | Op.ecrt_request_master _ _ => some 0
  | Op.ecrt_master_create_domain _ => some 1
  | Op.ecrt_domain_register_pdo_list _ => some 2
  | Op.ecrt_master_activate _ => some 3
  | Op.rt_task_init _ => some 4
  | Op.rt_task_make_periodic _ _ _ => some 5
  | _ => none

/-- Whether a call is one of the four release calls. -/
def is_release_op : Op → Bool
  | Op.rt_task_delete => true
  | Op.stop_rt_timer => true
  | Op.ecrt_release_master => true
  | Op.rt_sem_delete => true
  | _ => false

/-- All six fallible steps of `init_mod` report success. -/
def InitEnv.all_ok (env : InitEnv) : Bool :=
  env.master.isSome && env.domain.isSome && decide (env.pdo_ret = 0) &&
    decide (env.activate_ret = 0) && decide (env.task_init_ret = 0) &&
    decide (env.periodic_ret = 0)

/-! ## Interleaving model: the cyclic task and asynchronous callers -/

/-- The users of the two callbacks are code of the master, outside the file.  A
caller that goes through the callbacks asks with `request_lock`, touches the
master only after a grant, and leaves with `release_lock`; a denied caller does
not call `release_lock`.  The phases say where such a caller stands: outside the
callbacks, inside `request_lock` (with the value it is going to return), between a
granted `request_lock` and `release_lock`, or inside `release_lock`. -/
inductive Phase where
  | idle
  | in_request (ret : Int)
  | granted
  | in_release
deriving DecidableEq, Repr

/-- One asynchronous execution context using the callbacks. -/
structure Caller where
  phase : Phase
  pending : List Op
  holding : Bool
deriving DecidableEq, Repr

/-- A caller that is outside the callbacks and does not hold the lock. -/
def Caller.fresh : Caller := ⟨Phase.idle, [], false⟩

/-- State of the whole system: semaphore count, the globals, the calls of the
current pass that the cyclic task has still to perform, whether it holds the
lock, and the asynchronous callers. -/
structure Sys where
  sem : Int
  g : Globals
  cyc_pending : List Op
  cyc_holding : Bool
  callers : List Caller
deriving DecidableEq, Repr

/-- The system once `init_mod` has returned 0: the semaphore has the count given
to `rt_sem_init` on line 165, nobody holds it, `n` callers exist. -/
def Sys.start (g : Globals) (n : Nat) : Sys :=
  ⟨1, g, [], false, List.replicate n Caller.fresh⟩

/-- One atomic move of one execution context. -/
inductive Action where
  | cyc_begin (now : Nat) (st : ec_master_status_t)
  | cyc_exec
  | call_request (i : Nat) (now : Nat)
  | call_exec (i : Nat)
  | call_return (i : Nat)
  | call_release (i : Nat)
deriving DecidableEq, Repr

/-- A context performs one call: the semaphore count changes as `sem_step` says
(`none`: the context is blocked), and the context becomes the holder when its
wait returns and stops being the holder when it signals. -/
def exec_op (sem : Int) (holding : Bool) (op : Op) : Option (Int × Bool) :=
  match sem_step sem op with
  | none => none
  | some c =>
    some (c, match op with
      | Op.rt_sem_wait => true
      | Op.rt_sem_signal => false
      | _ => holding)

/-- The move `a` from state `s`; `none` when the move is not possible in `s`.

* `cyc_begin`: the cyclic task, having finished a pass, enters the next one; the
  calls of the pass become pending (the variables written by the pass are private
  to `run`, except `t_last_cycle`, which the pass writes first).
* `cyc_exec`, `call_exec i`: the context performs its next pending call.
* `call_request i`: an idle caller enters `request_lock`.
* `call_return i`: a caller whose callback has made all its calls returns; after
  `request_lock` returned 0 it is granted, otherwise idle.
* `call_release i`: a granted caller enters `release_lock`. -/
def step (w : Nat) (s : Sys) : Action → Option Sys
  | Action.cyc_begin now st =>
    match s.cyc_pending with
    | [] =>
      let r := run_iteration now st s.g
      some { s with g := r.1, cyc_pending := r.2 }
    | _ :: _ => none
  | Action.cyc_exec =>
    match s.cyc_pending with
    | [] => none
    | op :: rest =>
      match exec_op s.sem s.cyc_holding op with
      | none => none
      | some r => some { s with sem := r.1, cyc_pending := rest, cyc_holding := r.2 }
  | Action.call_request i now =>
    match s.callers[i]? with
    | some c =>
      if c.phase = Phase.idle then
        let r := request_lock w now s.g
        some { s with g := r.2.1,
                      callers := s.callers.set i ⟨Phase.in_request r.1, r.2.2, c.holding⟩ }
      else none
    | none => none
  | Action.call_exec i =>
    match s.callers[i]? with
    | some c =>
      match c.pending with
      | [] => none
      | op :: rest =>
        match exec_op s.sem c.holding op with
        | none => none
        | some r => some { s with sem := r.1, callers := s.callers.set i ⟨c.phase, rest, r.2⟩ }
    | none => none
  | Action.call_return i =>
    match s.callers[i]? with
    | some c =>
      match c.pending with
      | [] =>
        match c.phase with
        | Phase.in_request ret =>
          some { s with callers :=
            s.callers.set i ⟨if ret = 0 then Phase.granted else Phase.idle, [], c.holding⟩ }
        | Phase.in_release =>
          some { s with callers := s.callers.set i ⟨Phase.idle, [], c.holding⟩ }
        | _ => none
      | _ :: _ => none
    | none => none
  | Action.call_release i =>
    match s.callers[i]? with
    | some c =>
      if c.phase = Phase.granted then
        let r := release_lock s.g
        some { s with g := r.1, callers := s.callers.set i ⟨Phase.in_release, r.2, c.holding⟩ }
      else none
    | none => none

/-- A schedule: the moves are made one after the other. -/
def run_actions (w : Nat) (s : Sys) : List Action → Option Sys
  | [] => some s
  | a :: rest =>
    match step w s a with
    | some s1 => run_actions w s1 rest
    | none => none

/-- Number of execution contexts that hold the lock. -/
def holders (s : Sys) : Nat :=
  (if s.cyc_holding then 1 else 0) + s.callers.countP (fun c => c.holding)

/-- What is expected of a caller in each phase: outside the callbacks it has
nothing pending and does not hold the lock; inside `request_lock` its pending
calls use the lock legally and leave it the holder exactly when the callback is
going to return 0; once granted it holds the lock; inside `release_lock` its
pending calls leave it without the lock. -/
def caller_ok : Caller → Prop
  | ⟨Phase.idle, pending, holding⟩ => pending = [] ∧ holding = false
  | ⟨Phase.in_request ret, pending, holding⟩ =>
    hold_after holding pending = some (decide (ret = 0))
  | ⟨Phase.granted, pending, holding⟩ => pending = [] ∧ holding = true
  | ⟨Phase.in_release, pending, holding⟩ => hold_after holding pending = some false

/-- Invariant of the interleaving model: the count is not negative, count plus
number of holders is 1, the pending calls of the cyclic task use the lock legally
and end without it, and every caller is as `caller_ok` says. -/
def Sys.inv (s : Sys) : Prop :=
  0 ≤ s.sem ∧ s.sem + (holders s : Int) = 1 ∧
  hold_after s.cyc_holding s.cyc_pending = some false ∧
  ∀ c ∈ s.callers, caller_ok c

/-! ## Status notifications -/

/-- The three status fields the cyclic task watches. -/
inductive Field where
  | bus_status
  | bus_tainted
  | slaves_responding
deriving DecidableEq, Repr

/-- Value of a field of a status record. -/
def Field.get : Field → ec_master_status_t → Int
  | Field.bus_status, st => st.bus_status
  | Field.bus_tainted, st => (st.bus_tainted : Int)
  | Field.slaves_responding, st => (st.slaves_responding : Int)

/-- The field a call reports as changed, if the call is such a report. -/
def notified_field : Op → Option Field
  | Op.printk (Msg.bus_status_changed _) => some Field.bus_status
  | Op.printk (Msg.tainted_changed _) => some Field.bus_tainted
  | Op.printk (Msg.slaves_responding_changed _) => some Field.slaves_responding
  | _ => none

/-- The change notifications of a trace, in order. -/
def notifications (tr : List Op) : List Field := tr.filterMap notified_field

/-- Successive sampling steps, one per element of `samples`; returns the globals
afterwards and the trace of each step. -/
def sample_seq : Globals → List ec_master_status_t → Globals × List (List Op)
  | g, [] => (g, [])
  | g, st :: rest =>
    let r := sample_status st g
    let q := sample_seq r.1 rest
    (q.1, r.2 :: q.2)

/-! ## Blinking -/

/-- Whether pass `k` of the loop (passes are counted from 0) changes `blink`, the
loop having started with globals `g`. -/
def blink_flips (inp : Nat → Nat × ec_master_status_t) (g : Globals) (k : Nat) : Bool :=
  decide ((run_loop inp (k + 1) g).1.blink ≠ (run_loop inp k g).1.blink)

/-! ## Theorems: the deadline gate -/

/-- C1: whenever the elapsed tick count `get_cycles() - t_last_cycle` exceeds
`t_critical`, `request_lock` returns -1, leaves every variable unchanged, makes no
semaphore call, and completes whatever the semaphore count is (it cannot block),
leaving that count as it was. -/
theorem request_lock_denied (w now : Nat) (g : Globals)
    (h : elapsed w now g.t_last_cycle > g.t_critical) :
    (request_lock w now g).1 = -1 ∧
    (request_lock w now g).2.1 = g ∧
    sem_ops (request_lock w now g).2.2 = [] ∧
    ∀ c : Int, sem_exec c (request_lock w now g).2.2 = some c := by
  simp [request_lock, h, sem_ops, is_sem_op, sem_exec, sem_step]

/-- Witness of C1: 1000 ticks after the cycle start with a critical window of 10. -/
theorem request_lock_denied_witness :
    elapsed 64 1000 ({ Globals.initial with t_critical := 10 }).t_last_cycle
        > ({ Globals.initial with t_critical := 10 }).t_critical ∧
    (request_lock 64 1000 { Globals.initial with t_critical := 10 }).1 = -1 ∧
    (request_lock 64 1000 { Globals.initial with t_critical := 10 }).2.1
        = { Globals.initial with t_critical := 10 } ∧
    sem_ops (request_lock 64 1000 { Globals.initial with t_critical := 10 }).2.2 = [] ∧
    ∀ c : Int,
      sem_exec c (request_lock 64 1000 { Globals.initial with t_critical := 10 }).2.2
        = some c :=
  ⟨by decide, request_lock_denied 64 1000 { Globals.initial with t_critical := 10 } (by decide)⟩

/-- A move of the system leaves a granted caller granted and holding, except the
caller's own entry into `release_lock`, after which it still holds the lock and
has exactly one `rt_sem_signal` pending. -/
lemma granted_stays_held (w : Nat) (s s1 : Sys) (a : Action) (i : Nat)
    (hc : s.callers[i]? = some ⟨Phase.granted, [], true⟩)
    (hs : step w s a = some s1) :
    s1.callers[i]? = some ⟨Phase.granted, [], true⟩ ∨
    (a = Action.call_release i ∧
      s1.callers[i]? = some ⟨Phase.in_release, [Op.rt_sem_signal], true⟩) := by
  have hlt : i < s.callers.length := by
    rcases List.getElem?_eq_some.mp hc with ⟨h, _⟩
    exact h
  cases a with
  | cyc_begin now st =>
    left
    simp only [step] at hs
    split at hs
    · simp only [Option.some.injEq] at hs
      subst hs
      exact hc
    · exact absurd hs (by simp)
  | cyc_exec =>
    left
    simp only [step] at hs
    split at hs
    · exact absurd hs (by simp)
    · split at hs
      · exact absurd hs (by simp)
      · simp only [Option.some.injEq] at hs
        subst hs
        exact hc
  | call_request j now =>
    left
    simp only [step] at hs
    split at hs
    · rename_i c hj
      split at hs
      · rename_i hph
        simp only [Option.some.injEq] at hs
        subst hs
        by_cases hji : j = i
        · subst hji
          rw [hc] at hj
          simp only [Option.some.injEq] at hj
          subst hj
          exact absurd hph (by simp)
        · simp only [List.getElem?_set_ne hji]
          exact hc
      · exact absurd hs (by simp)
    · exact absurd hs (by simp)
  | call_exec j =>
    left
    simp only [step] at hs
    split at hs
    · rename_i c hj
      split at hs
      · exact absurd hs (by simp)
      · rename_i op rest hp
        split at hs
        · exact absurd hs (by simp)
        · simp only [Option.some.injEq] at hs
          subst hs
          by_cases hji : j = i
          · subst hji
            rw [hc] at hj
            simp only [Option.some.injEq] at hj
            subst hj
            exact absurd hp (by simp)
          · simp only [List.getElem?_set_ne hji]
            exact hc
    · exact absurd hs (by simp)
  | call_return j =>
    left
    simp only [step] at hs
    split at hs
    · rename_i c hj
      by_cases hji : j = i
      · subst hji
        rw [hc] at hj
        simp only [Option.some.injEq] at hj
        subst hj
        simp at hs
      · split at hs
        · split at hs
          · simp only [Option.some.injEq] at hs
            subst hs
            simp only [List.getElem?_set_ne hji]
            exact hc
          · simp only [Option.some.injEq] at hs
            subst hs
            simp only [List.getElem?_set_ne hji]
            exact hc
          · exact absurd hs (by simp)
        · exact absurd hs (by simp)
    · exact absurd hs (by simp)
  | call_release j =>
    simp only [step] at hs
    split at hs
    · rename_i c hj
      split at hs
      · simp only [Option.some.injEq] at hs
        subst hs
        by_cases hji : j = i
        · subst hji
          right
          rw [hc] at hj
          simp only [Option.some.injEq] at hj
          subst hj
          refine ⟨rfl, ?_⟩
          simp [List.getElem?_set_self hlt, release_lock]
        · left
          simp only [List.getElem?_set_ne hji]
          exact hc
      · exact absurd hs (by simp)
    · exact absurd hs (by simp)

/-- C2: whenever `get_cycles() - t_last_cycle <= t_critical` (equality included),
`request_lock` returns 0, changes no variable, and its only semaphore call is one
`rt_sem_wait`, so that against every semaphore count it does exactly what a direct
wait does (it blocks on a count that is not positive, otherwise takes the lock) and
makes the caller the holder; `release_lock` is exactly one unconditional
`rt_sem_signal`; and between the two no move of any context takes the lock away
from the granted caller. -/
theorem request_lock_granted (w now : Nat) (g : Globals)
    (h : elapsed w now g.t_last_cycle ≤ g.t_critical) :
    (request_lock w now g).1 = 0 ∧
    (request_lock w now g).2.1 = g ∧
    sem_ops (request_lock w now g).2.2 = [Op.rt_sem_wait] ∧
    (∀ c : Int, sem_exec c (request_lock w now g).2.2 = sem_step c Op.rt_sem_wait) ∧
    hold_after false (request_lock w now g).2.2 = some true ∧
    (∀ g1 : Globals, release_lock g1 = (g1, [Op.rt_sem_signal]) ∧
      (∀ c : Int, sem_exec c (release_lock g1).2 = some (c + 1)) ∧
      hold_after true (release_lock g1).2 = some false) ∧
    (∀ (s s1 : Sys) (a : Action) (i : Nat),
      s.callers[i]? = some ⟨Phase.granted, [], true⟩ → step w s a = some s1 →
      s1.callers[i]? = some ⟨Phase.granted, [], true⟩ ∨
      (a = Action.call_release i ∧
        s1.callers[i]? = some ⟨Phase.in_release, [Op.rt_sem_signal], true⟩)) := by
  have hn : ¬ (g.t_critical < elapsed w now g.t_last_cycle) := Nat.not_lt.mpr h
  refine ⟨?_, ?_, ?_, ?_, ?_, ?_, ?_⟩
  · simp [request_lock, hn]
  · simp [request_lock, hn]
  · simp [request_lock, hn, sem_ops, is_sem_op]
  · intro c
    simp only [request_lock, gt_iff_lt, hn, if_false, sem_exec, sem_step]
    by_cases hc : 0 < c <;> simp [hc, sem_exec]
  · simp [request_lock, hn, hold_after]
  · intro g1
    simp [release_lock, sem_exec, sem_step, hold_after]
  · intro s s1 a i hc hs
    exact granted_stays_held w s s1 a i hc hs

/-- Witness of C2: the request arrives exactly `t_critical` ticks after the cycle
start (the boundary case). -/
theorem request_lock_granted_witness :
    elapsed 64 10 ({ Globals.initial with t_critical := 10 }).t_last_cycle
        ≤ ({ Globals.initial with t_critical := 10 }).t_critical ∧
    (request_lock 64 10 { Globals.initial with t_critical := 10 }).1 = 0 ∧
    sem_ops (request_lock 64 10 { Globals.initial with t_critical := 10 }).2.2
        = [Op.rt_sem_wait] :=
  ⟨by decide,
   (request_lock_granted 64 10 { Globals.initial with t_critical := 10 } (by decide)).1,
   (request_lock_granted 64 10 { Globals.initial with t_critical := 10 } (by decide)).2.2.1⟩

/-! ## Theorems: one pass of the cyclic task -/

/-- C9: in every pass of the loop of `run` the clock is read and stored in
`t_last_cycle` first; then come, in this order, the receive phase (wait, receive,
process, signal), the write to the output slot, and the send phase (wait, queue,
send, signal); whatever follows is status sampling (semaphore calls, the status
query, log lines); and `rt_task_wait_period` is called exactly once, as the last
call of the pass. -/
theorem run_iteration_order (now : Nat) (st : ec_master_status_t) (g : Globals) :
    (run_iteration now st g).1.t_last_cycle = now ∧
    (run_iteration now st g).2.count Op.rt_task_wait_period = 1 ∧
    ∃ mid : List Op,
      (run_iteration now st g).2 =
        [Op.get_cycles now,
         Op.rt_sem_wait, Op.ecrt_master_receive, Op.ecrt_domain_process, Op.rt_sem_signal,
         Op.EC_WRITE_U8 (if g.blink ≠ 0 then 0x0F else 0x00),
         Op.rt_sem_wait, Op.ecrt_domain_queue, Op.ecrt_master_send, Op.rt_sem_signal]
        ++ mid ++ [Op.rt_task_wait_period] ∧
      ∀ op ∈ mid, op = Op.rt_sem_wait ∨ op = Op.rt_sem_signal ∨
        op = Op.ecrt_master_get_status st ∨ ∃ m, op = Op.printk m := by
  by_cases hcnt : g.counter = 0
  · by_cases h1 : st.bus_status = g.old_status.bus_status <;>
    by_cases h2 : st.bus_tainted = g.old_status.bus_tainted <;>
    by_cases h3 : st.slaves_responding = g.old_status.slaves_responding <;>
    refine ⟨by simp [run_iteration, sample_status, hcnt],
      by simp [run_iteration, sample_status, hcnt, h1, h2, h3, List.count_cons], ?_⟩
    all_goals
      refine ⟨[Op.rt_sem_wait, Op.ecrt_master_get_status st, Op.rt_sem_signal] ++
        (if st.bus_status ≠ g.old_status.bus_status then
          [Op.printk (Msg.bus_status_changed st.bus_status)] else []) ++
        (if st.bus_tainted ≠ g.old_status.bus_tainted then
          [Op.printk (Msg.tainted_changed st.bus_tainted)] else []) ++
        (if st.slaves_responding ≠ g.old_status.slaves_responding then
          [Op.printk (Msg.slaves_responding_changed st.slaves_responding)] else []), ?_, ?_⟩
    all_goals simp [run_iteration, sample_status, hcnt, h1, h2, h3]
  · refine ⟨by simp [run_iteration, hcnt], by simp [run_iteration, hcnt, List.count_cons],
      [], by simp [run_iteration, hcnt], by simp⟩

/-- Witness of C9: the first pass after loading, which samples the status 1, 0, 3
at clock value 5. -/
theorem run_iteration_order_witness :
    (run_iteration 5 ⟨1, 0, 3⟩ Globals.initial).1.t_last_cycle = 5 ∧
    (run_iteration 5 ⟨1, 0, 3⟩ Globals.initial).2.count Op.rt_task_wait_period = 1 :=
  ⟨(run_iteration_order 5 ⟨1, 0, 3⟩ Globals.initial).1,
   (run_iteration_order 5 ⟨1, 0, 3⟩ Globals.initial).2.1⟩

/-- C10: every pass of the loop of `run`, sampling or not, issues its semaphore
calls as wait, signal, wait, signal (and a third wait, signal pair when it
samples): it never waits while holding the lock nor signals without holding it, it
does not hold the lock when it reaches `rt_task_wait_period`, and run against a
semaphore whose count lets it proceed it leaves the count as it found it. -/
theorem run_iteration_sem_balanced (now : Nat) (st : ec_master_status_t) (g : Globals) :
    sem_ops (run_iteration now st g).2 =
      (if g.counter ≠ 0 then
        [Op.rt_sem_wait, Op.rt_sem_signal, Op.rt_sem_wait, Op.rt_sem_signal]
      else
        [Op.rt_sem_wait, Op.rt_sem_signal, Op.rt_sem_wait, Op.rt_sem_signal,
         Op.rt_sem_wait, Op.rt_sem_signal]) ∧
    (run_iteration now st g).2.getLast? = some Op.rt_task_wait_period ∧
    hold_after false (run_iteration now st g).2.dropLast = some false ∧
    hold_after false (run_iteration now st g).2 = some false ∧
    ∀ c : Int, sem_exec c (run_iteration now st g).2 = if 0 < c then some c else none := by
  by_cases hcnt : g.counter = 0
  · by_cases h1 : st.bus_status = g.old_status.bus_status <;>
    by_cases h2 : st.bus_tainted = g.old_status.bus_tainted <;>
    by_cases h3 : st.slaves_responding = g.old_status.slaves_responding <;>
    refine ⟨by simp [run_iteration, sample_status, hcnt, h1, h2, h3, sem_ops, is_sem_op],
      by simp [run_iteration, sample_status, hcnt, h1, h2, h3],
      by simp [run_iteration, sample_status, hcnt, h1, h2, h3, hold_after, List.dropLast],
      by simp [run_iteration, sample_status, hcnt, h1, h2, h3, hold_after], ?_⟩
    all_goals
      intro c
      by_cases hc : 0 < c <;>
        simp [run_iteration, sample_status, hcnt, h1, h2, h3, sem_exec, sem_step, hc]
  · refine ⟨by simp [run_iteration, hcnt, sem_ops, is_sem_op],
      by simp [run_iteration, hcnt],
      by simp [run_iteration, hcnt, hold_after, List.dropLast],
      by simp [run_iteration, hcnt, hold_after], ?_⟩
    intro c
    by_cases hc : 0 < c <;> simp [run_iteration, hcnt, sem_exec, sem_step, hc]

/-! ## Theorems: status tracking -/

/-- A sampling step reports a field exactly when its new value differs from the
stored one, and then once. -/
lemma sample_status_count (st : ec_master_status_t) (g : Globals) (f : Field) :
    (notifications (sample_status st g).2).count f =
      if f.get st ≠ f.get g.old_status then 1 else 0 := by
  by_cases h1 : st.bus_status = g.old_status.bus_status <;>
  by_cases h2 : st.bus_tainted = g.old_status.bus_tainted <;>
  by_cases h3 : st.slaves_responding = g.old_status.slaves_responding <;>
  cases f <;>
  simp [sample_status, notifications, notified_field, Field.get, h1, h2, h3,
    List.filterMap_cons, List.count_cons]

/-- A sampling step stores the new sample in `old_status`. -/
lemma sample_status_old (st : ec_master_status_t) (g : Globals) :
    (sample_status st g).1.old_status = st := by
  simp [sample_status]

/-- Along successive sampling steps every sample is compared with the one before
it, the first with the stored snapshot. -/
lemma sample_seq_counts (f : Field) (samples : List ec_master_status_t) :
    ∀ g : Globals,
      (sample_seq g samples).2.map (fun tr => (notifications tr).count f) =
        List.zipWith (fun prev new => if f.get new ≠ f.get prev then 1 else 0)
          (g.old_status :: samples) samples := by
  induction samples with
  | nil => intro g; simp [sample_seq]
  | cons st rest ih =>
    intro g
    simp only [sample_seq, List.map_cons, List.zipWith_cons_cons]
    rw [ih (sample_status st g).1, sample_status_old, sample_status_count]

/-- After successive sampling steps `old_status` is the last sample. -/
lemma sample_seq_old (samples : List ec_master_status_t) :
    ∀ g : Globals,
      (sample_seq g samples).1.old_status = samples.getLast?.getD g.old_status := by
  induction samples with
  | nil => intro g; simp [sample_seq]
  | cons st rest ih =>
    intro g
    simp only [sample_seq]
    rw [ih (sample_status st g).1, sample_status_old]
    cases rest with
    | nil => simp
    | cons a t =>
      rw [List.getLast?_cons_cons]
      cases hl : (a :: t).getLast? with
      | none => simp at hl
      | some x => simp

/-- C4: a pass of the cyclic task reports a change of a status field exactly when
the pass samples and the sampled value of the field differs from the value kept in
`old_status`, and then exactly once; a sampling pass stores the sample in
`old_status` whether or not anything changed, and a pass that does not sample
leaves `old_status` alone.  Hence along any sequence of samples each sample is
compared with the immediately preceding one, the first with the snapshot stored
before (all zero when the module is loaded, and `init_mod` does not touch it).
Example: snapshot 0, 0, 3 followed by the sample 1, 0, 3 gives one report, for
`bus_status`. -/
theorem status_change_notifications (g : Globals) (now : Nat) (st : ec_master_status_t)
    (samples : List ec_master_status_t) (f : Field) :
    (notifications (run_iteration now st g).2).count f =
      (if g.counter = 0 ∧ f.get st ≠ f.get g.old_status then 1 else 0) ∧
    (run_iteration now st g).1.old_status = (if g.counter = 0 then st else g.old_status) ∧
    (notifications (sample_status st g).2).count f =
      (if f.get st ≠ f.get g.old_status then 1 else 0) ∧
    (sample_status st g).1.old_status = st ∧
    (sample_seq g samples).2.map (fun tr => (notifications tr).count f) =
      List.zipWith (fun prev new => if f.get new ≠ f.get prev then 1 else 0)
        (g.old_status :: samples) samples ∧
    (sample_seq g samples).1.old_status = samples.getLast?.getD g.old_status ∧
    Globals.initial.old_status = status_zero ∧
    (∀ (uw : Nat) (env : InitEnv) (g0 : Globals),
      (init_mod uw env g0).2.1.old_status = g0.old_status) ∧
    notifications (sample_status ⟨1, 0, 3⟩ { Globals.initial with old_status := ⟨0, 0, 3⟩ }).2
      = [Field.bus_status] := by
  refine ⟨?_, ?_, sample_status_count st g f, sample_status_old st g,
    sample_seq_counts f samples g, sample_seq_old samples g, rfl, ?_, by decide⟩
  · by_cases hcnt : g.counter = 0
    · by_cases h1 : st.bus_status = g.old_status.bus_status <;>
      by_cases h2 : st.bus_tainted = g.old_status.bus_tainted <;>
      by_cases h3 : st.slaves_responding = g.old_status.slaves_responding <;>
      cases f <;>
      simp [run_iteration, sample_status, notifications, notified_field, Field.get, hcnt,
        h1, h2, h3, List.filterMap_cons, List.count_cons]
    · simp [run_iteration, hcnt, notifications, notified_field, List.filterMap_cons]
  · by_cases hcnt : g.counter = 0
    · simp [run_iteration, hcnt, sample_status]
    · simp [run_iteration, hcnt]
  · intro uw env g0
    simp only [init_mod]
    split_ifs <;> rfl

/-! ## Theorems: the sub-period counter -/

/-- Effect of one pass on `counter` and `blink`. -/
lemma run_iteration_counter (now : Nat) (st : ec_master_status_t) (g : Globals) :
    (run_iteration now st g).1.counter = (if g.counter = 0 then FREQUENCY else g.counter - 1) ∧
    (run_iteration now st g).1.blink =
      (if g.counter = 0 then (if g.blink = 0 then 1 else 0) else g.blink) := by
  by_cases hcnt : g.counter = 0
  · simp [run_iteration, sample_status, hcnt]
  · simp [run_iteration, hcnt]

/-- Value of `counter` after `k` passes of a loop started with `counter = 0`. -/
lemma run_loop_counter (inp : Nat → Nat × ec_master_status_t) (g : Globals) (k : Nat) :
    (run_loop inp k { g with counter := 0 }).1.counter = (2001 - k % 2001) % 2001 := by
  induction k with
  | zero => simp [run_loop]
  | succ n ih =>
    simp only [run_loop]
    rw [(run_iteration_counter _ _ _).1, ih]
    simp only [FREQUENCY]
    split_ifs <;> omega

/-- C5 (what the code does): started with `counter = 0`, the loop of `run` changes
`blink` in pass `k` exactly when `k` is a multiple of `FREQUENCY + 1`: in pass 0
and next in pass 2001, not in pass 2000.  Two consecutive flips are therefore
`FREQUENCY + 1 = 2001` passes apart, not `FREQUENCY = 2000`. -/
theorem run_blink_period (inp : Nat → Nat × ec_master_status_t) (g : Globals) (k : Nat) :
    blink_flips inp { g with counter := 0 } k = decide (k % (FREQUENCY + 1) = 0) ∧
    blink_flips inp { g with counter := 0 } 0 = true ∧
    blink_flips inp { g with counter := 0 } FREQUENCY = false ∧
    blink_flips inp { g with counter := 0 } (FREQUENCY + 1) = true := by
  have iff_mod : ∀ j : Nat,
      ((run_loop inp (j + 1) { g with counter := 0 }).1.blink ≠
        (run_loop inp j { g with counter := 0 }).1.blink) ↔ j % (FREQUENCY + 1) = 0 := by
    intro j
    have hc := run_loop_counter inp g j
    simp only [run_loop]
    rw [(run_iteration_counter _ _ _).2, hc]
    simp only [FREQUENCY]
    by_cases hj : j % 2001 = 0
    · have h0 : (2001 - j % 2001) % 2001 = 0 := by omega
      simp only [h0, hj, if_true, iff_true]
      split_ifs <;> omega
    · have h0 : ¬ (2001 - j % 2001) % 2001 = 0 := by omega
      simp [h0, hj]
  have key : ∀ j : Nat,
      blink_flips inp { g with counter := 0 } j = decide (j % (FREQUENCY + 1) = 0) := by
    intro j
    unfold blink_flips
    exact decide_eq_decide.mpr (iff_mod j)
  refine ⟨key k, ?_, ?_, ?_⟩
  · rw [key]; decide
  · rw [key]; decide
  · rw [key]; decide

/-! ## Theorems: the critical window -/

/-- C8 (as stated, refuted): with 32-bit arithmetic and `cpu_khz = 49` the critical
window equals the cycle length, 24 ticks, so it is not strictly below it. -/
theorem t_critical_not_below_cycle :
    t_critical_init 32 49 = 24 ∧ cycle_ticks 32 49 = 24 ∧
    ¬ (t_critical_init 32 49 < cycle_ticks 32 49) := by
  decide

/-- C8 (amended): for every clock rate `cpu_khz` of at least 50 whose product with
1000 fits the unsigned type, the critical window computed on line 167 is the cycle
length minus the inhibit margin without wrap-around, and is strictly below the
cycle length `cpu_khz * 1000 / FREQUENCY`. -/
theorem t_critical_below_cycle (uw cpu_khz : Nat) (hlo : 50 ≤ cpu_khz)
    (hhi : cpu_khz * 1000 < 2 ^ uw) :
    t_critical_init uw cpu_khz + inhibit_ticks uw cpu_khz = cycle_ticks uw cpu_khz ∧
    0 ≤ t_critical_init uw cpu_khz ∧
    t_critical_init uw cpu_khz < cycle_ticks uw cpu_khz := by
  have h1 : cpu_khz * 1000 % 2 ^ uw = cpu_khz * 1000 := Nat.mod_eq_of_lt hhi
  have h2 : cpu_khz * INHIBIT_TIME % 2 ^ uw = cpu_khz * 20 := by
    simp only [INHIBIT_TIME]
    exact Nat.mod_eq_of_lt (by omega)
  have hc : cycle_ticks uw cpu_khz = cpu_khz * 1000 / 2000 := by
    simp [cycle_ticks, FREQUENCY, h1]
  have hi : inhibit_ticks uw cpu_khz = cpu_khz * 20 / 1000 := by
    simp [inhibit_ticks, h2]
  have hle : cpu_khz * 20 / 1000 ≤ cpu_khz * 1000 / 2000 := by omega
  have hpos : 1 ≤ cpu_khz * 20 / 1000 := by omega
  have hlt : cpu_khz * 1000 / 2000 < 2 ^ uw := by omega
  have ht : t_critical_init uw cpu_khz = cpu_khz * 1000 / 2000 - cpu_khz * 20 / 1000 := by
    unfold t_critical_init
    rw [hc, hi]
    have hnn : (0 : Int) ≤
        ((cpu_khz * 1000 / 2000 : Nat) : Int) - ((cpu_khz * 20 / 1000 : Nat) : Int) := by
      omega
    have hup : ((cpu_khz * 1000 / 2000 : Nat) : Int) - ((cpu_khz * 20 / 1000 : Nat) : Int)
        < (2 : Int) ^ uw := by
      have : ((2 ^ uw : Nat) : Int) = (2 : Int) ^ uw := by push_cast; rfl
      rw [← this]
      omega
    rw [Int.emod_eq_of_lt hnn hup]
    omega
  rw [ht, hc, hi]
  omega

/-- Beyond the range of the amended bound: with 32-bit arithmetic and a clock of
4294968 kHz the product `cpu_khz * 1000` wraps around, the cycle length comes out
as 0 and the subtraction wraps as well. -/
lemma t_critical_wraps :
    cycle_ticks 32 4294968 = 0 ∧ inhibit_ticks 32 4294968 = 85899 ∧
    t_critical_init 32 4294968 = 4294881397 := by
  decide

/-- Witness of C8 (amended): a 3 GHz clock and 32-bit arithmetic. -/
theorem t_critical_below_cycle_witness :
    50 ≤ 3000000 ∧ 3000000 * 1000 < 2 ^ 32 ∧
    t_critical_init 32 3000000 < cycle_ticks 32 3000000 :=
  ⟨by decide, by decide, (t_critical_below_cycle 32 3000000 (by decide) (by decide)).2.2⟩

/-! ## Theorems: start-up rollback and removal -/

/-- C6: when `ecrt_domain_register_pdo_list` fails after `ecrt_request_master` and
`ecrt_master_create_domain` succeeded, `init_mod` returns -1, its release calls are
one `ecrt_release_master` followed by `rt_sem_delete`, through which the domain
and then the master handle are given up, once each and in the reverse of the
order lock, master, domain in which they were acquired, and `rt_task_init` is
never called. -/
theorem init_mod_pdo_failure (uw : Nat) (env : InitEnv) (g : Globals) (m d : Nat)
    (hm : env.master = some m) (hd : env.domain = some d) (hp : env.pdo_ret ≠ 0) :
    (init_mod uw env g).1 = -1 ∧
    (init_mod uw env g).2.2.filter is_release_op = [Op.ecrt_release_master, Op.rt_sem_delete] ∧
    (init_mod uw env g).2.2.filter is_task_init = [] ∧
    ledger_run true Ledger.empty (init_mod uw env g).2.2 =
      some ⟨[], [Resource.lock, Resource.master, Resource.domain],
        [Resource.domain, Resource.master, Resource.lock]⟩ := by
  simp [init_mod, hm, hd, hp, out_release_master, out_return, is_release_op, is_task_init,
    ledger_run, ledger_step, Ledger.empty, Ledger.acquire, Ledger.release,
    ecrt_release_master_effect]

/-- Witness of C6: master 1 and domain 2 are obtained, PDO registration returns -1. -/
theorem init_mod_pdo_failure_witness :
    (init_mod 32 ⟨3000000, some 1, some 2, -1, 0, 0, 0, 0, 0, 0⟩ Globals.initial).1 = -1 ∧
    (init_mod 32 ⟨3000000, some 1, some 2, -1, 0, 0, 0, 0, 0, 0⟩ Globals.initial).2.2.filter
      is_release_op = [Op.ecrt_release_master, Op.rt_sem_delete] ∧
    (init_mod 32 ⟨3000000, some 1, some 2, -1, 0, 0, 0, 0, 0, 0⟩ Globals.initial).2.2.filter
      is_task_init = [] ∧
    ledger_run true Ledger.empty
      (init_mod 32 ⟨3000000, some 1, some 2, -1, 0, 0, 0, 0, 0, 0⟩ Globals.initial).2.2 =
      some ⟨[], [Resource.lock, Resource.master, Resource.domain],
        [Resource.domain, Resource.master, Resource.lock]⟩ :=
  init_mod_pdo_failure 32 ⟨3000000, some 1, some 2, -1, 0, 0, 0, 0, 0, 0⟩ Globals.initial 1 2
    rfl rfl (by decide)

/-- C7: if any of the six fallible steps of `init_mod` fails, the function returns
-1, has attempted the steps in order, each at most once, up to the failing one, and
has released exactly what it had acquired by then, newest first, each once, so
that nothing is held afterwards; if all succeed it returns 0 holding task, timer,
master handle and lock, and `cleanup_mod` then makes the release calls
`rt_task_delete`, `stop_rt_timer`, `ecrt_release_master`, `rt_sem_delete`, again
the reverse of the acquisition order.  This holds whether or not the domain is
counted as a resource (`dom`). -/
theorem init_mod_rollback (uw : Nat) (env : InitEnv) (g : Globals) (dom : Bool) :
    (env.all_ok = false →
      (init_mod uw env g).1 = -1 ∧
      (∃ k, k ≤ 6 ∧ (init_mod uw env g).2.2.filterMap fallible_step = List.range k) ∧
      ∃ l, ledger_run dom Ledger.empty (init_mod uw env g).2.2 = some l ∧
        l.live = [] ∧ l.released = l.acquired.reverse ∧ l.acquired.Nodup ∧
        Resource.lock ∈ l.acquired) ∧
    (env.all_ok = true →
      (init_mod uw env g).1 = 0 ∧
      (init_mod uw env g).2.2.filterMap fallible_step = List.range 6 ∧
      (init_mod uw env g).2.2.filter is_release_op = [] ∧
      (cleanup_mod (init_mod uw env g).2.1).2.filter is_release_op =
        [Op.rt_task_delete, Op.stop_rt_timer, Op.ecrt_release_master, Op.rt_sem_delete] ∧
      ∃ l, ledger_run dom Ledger.empty
          ((init_mod uw env g).2.2 ++ (cleanup_mod (init_mod uw env g).2.1).2) = some l ∧
        l.live = [] ∧ l.released = l.acquired.reverse ∧ l.acquired.Nodup ∧
        l.released.filter (fun r => decide (r ≠ Resource.domain)) =
          [Resource.task, Resource.timer, Resource.master, Resource.lock]) := by
  rcases env with ⟨khz, m, d, p, a, rq, tp, ti, nw, pr⟩
  constructor
  · intro hfail
    cases m with
    | none =>
      refine ⟨by simp [init_mod],
        ⟨1, by omega,
          by simp [init_mod, out_return, fallible_step, List.range_succ]⟩, ?_⟩
      simp [init_mod, out_return, ledger_run, ledger_step, Ledger.empty, Ledger.acquire,
        Ledger.release]
    | some mv =>
      cases d with
      | none =>
        refine ⟨by simp [init_mod],
          ⟨2, by omega,
            by simp [init_mod, out_release_master, out_return, fallible_step,
              List.range_succ]⟩, ?_⟩
        cases dom <;>
        simp [init_mod, out_release_master, out_return, ledger_run, ledger_step, Ledger.empty,
          Ledger.acquire, Ledger.release, ecrt_release_master_effect]
      | some dv =>
        by_cases hp : p = 0
        · by_cases ha : a = 0
          · by_cases hti : ti = 0
            · by_cases hpr : pr = 0
              · simp [InitEnv.all_ok, hp, ha, hti, hpr] at hfail
              · refine ⟨by simp [init_mod, hp, ha, hti, hpr],
                  ⟨6, by omega,
                    by simp [init_mod, hp, ha, hti, hpr, out_stop_task, out_stop_timer,
                      out_release_master, out_return, fallible_step, List.range_succ]⟩, ?_⟩
                cases dom <;>
                simp [init_mod, hp, ha, hti, hpr, out_stop_task, out_stop_timer,
                  out_release_master, out_return, ledger_run, ledger_step, Ledger.empty,
                  Ledger.acquire, Ledger.release, ecrt_release_master_effect]
            · refine ⟨by simp [init_mod, hp, ha, hti],
                ⟨5, by omega,
                  by simp [init_mod, hp, ha, hti, out_stop_timer, out_release_master,
                    out_return, fallible_step, List.range_succ]⟩, ?_⟩
              cases dom <;>
              simp [init_mod, hp, ha, hti, out_stop_timer,
                out_release_master, out_return, ledger_run, ledger_step, Ledger.empty,
                Ledger.acquire, Ledger.release, ecrt_release_master_effect]
          · refine ⟨by simp [init_mod, hp, ha],
              ⟨4, by omega,
                by simp [init_mod, hp, ha, out_release_master, out_return, fallible_step,
                  List.range_succ]⟩, ?_⟩
            cases dom <;>
            simp [init_mod, hp, ha, out_release_master, out_return, ledger_run, ledger_step,
              Ledger.empty, Ledger.acquire, Ledger.release, ecrt_release_master_effect]
        · refine ⟨by simp [init_mod, hp],
            ⟨3, by omega,
              by simp [init_mod, hp, out_release_master, out_return, fallible_step,
                List.range_succ]⟩, ?_⟩
          cases dom <;>
          simp [init_mod, hp, out_release_master, out_return, ledger_run, ledger_step,
            Ledger.empty, Ledger.acquire, Ledger.release, ecrt_release_master_effect]
  · intro hok
    simp only [InitEnv.all_ok, Bool.and_eq_true, decide_eq_true_eq, Option.isSome_iff_exists] at hok
    obtain ⟨⟨⟨⟨⟨⟨mv, hm⟩, ⟨dv, hd⟩⟩, hp⟩, ha⟩, hti⟩, hpr⟩ := hok
    subst hm hd hp ha hti hpr
    refine ⟨by simp [init_mod], by simp [init_mod, fallible_step, List.range_succ],
      by simp [init_mod, is_release_op], by simp [cleanup_mod, is_release_op], ?_⟩
    cases dom <;>
    simp [init_mod, cleanup_mod, ledger_run, ledger_step, Ledger.empty, Ledger.acquire,
      Ledger.release, ecrt_release_master_effect]

/-- Witness of C7: task creation fails in one run, every step succeeds in another. -/
theorem init_mod_rollback_witness :
    (InitEnv.all_ok ⟨3000000, some 1, some 2, 0, 0, 0, 0, -1, 0, 0⟩ = false ∧
      (init_mod 32 ⟨3000000, some 1, some 2, 0, 0, 0, 0, -1, 0, 0⟩ Globals.initial).1 = -1) ∧
    (InitEnv.all_ok ⟨3000000, some 1, some 2, 0, 0, 0, 0, 0, 0, 0⟩ = true ∧
      (init_mod 32 ⟨3000000, some 1, some 2, 0, 0, 0, 0, 0, 0, 0⟩ Globals.initial).1 = 0) :=
  ⟨⟨by decide,
    ((init_mod_rollback 32 ⟨3000000, some 1, some 2, 0, 0, 0, 0, -1, 0, 0⟩ Globals.initial
      true).1 (by decide)).1⟩,
   ⟨by decide,
    ((init_mod_rollback 32 ⟨3000000, some 1, some 2, 0, 0, 0, 0, 0, 0, 0⟩ Globals.initial
      true).2 (by decide)).1⟩⟩

/-! ## Theorems: mutual exclusion -/

/-- Replacing one element of a list changes a count by the difference of the two
elements. -/
lemma countP_set_add {α : Type} (p : α → Bool) :
    ∀ (l : List α) (i : Nat) (c c1 : α), l[i]? = some c →
      (l.set i c1).countP p + (if p c then 1 else 0) =
        l.countP p + (if p c1 then 1 else 0) := by
  intro l
  induction l with
  | nil => intro i c c1 h; simp at h
  | cons a t ih =>
    intro i c c1 h
    cases i with
    | zero =>
      simp only [List.getElem?_cons_zero, Option.some.injEq] at h
      subst h
      simp only [List.set_cons_zero, List.countP_cons]
      omega
    | succ j =>
      simp only [List.getElem?_cons_succ] at h
      have := ih j c c1 h
      simp only [List.set_cons_succ, List.countP_cons]
      omega

set_option linter.unnecessarySeqFocus false in
/-- A call performed by a context whose pending calls use the lock legally keeps
them legal, keeps the count non-negative and keeps count plus holding constant. -/
lemma exec_op_preserves (sem : Int) (h : Bool) (op : Op) (rest : List Op) (x : Bool)
    (r : Int × Bool) (hsem : 0 ≤ sem)
    (hh : hold_after h (op :: rest) = some x) (he : exec_op sem h op = some r) :
    hold_after r.2 rest = some x ∧ 0 ≤ r.1 ∧
    r.1 + ((if r.2 then 1 else 0 : Nat) : Int) = sem + ((if h then 1 else 0 : Nat) : Int) := by
  cases op <;> cases h <;>
    simp only [hold_after, exec_op, sem_step, Bool.false_eq_true, if_false, if_true,
      Option.some.injEq] at hh he <;>
    first
    | exact absurd hh (by simp)
    | (subst he; exact ⟨hh, by simpa using hsem, by simp⟩)
    | (subst he; refine ⟨hh, ?_, ?_⟩ <;> simp <;> omega)
    | (by_cases hpos : 0 < sem
       · simp only [hpos, if_true, Option.some.injEq] at he
         subst he
         refine ⟨hh, ?_, ?_⟩ <;> simp <;> omega
       · simp [hpos] at he)

/-- The calls of one pass of `run` use the lock legally and end without it. -/
lemma run_iteration_hold (now : Nat) (st : ec_master_status_t) (g : Globals) :
    hold_after false (run_iteration now st g).2 = some false := by
  by_cases hcnt : g.counter = 0
  · by_cases h1 : st.bus_status = g.old_status.bus_status <;>
    by_cases h2 : st.bus_tainted = g.old_status.bus_tainted <;>
    by_cases h3 : st.slaves_responding = g.old_status.slaves_responding <;>
    simp [run_iteration, sample_status, hcnt, h1, h2, h3, hold_after]
  · simp [run_iteration, hcnt, hold_after]

/-- The calls of `request_lock` leave the caller holding the lock exactly when the
callback returns 0. -/
lemma request_lock_hold (w now : Nat) (g : Globals) :
    hold_after false (request_lock w now g).2.2 =
      some (decide ((request_lock w now g).1 = 0)) := by
  by_cases h : elapsed w now g.t_last_cycle > g.t_critical
  · simp [request_lock, h, hold_after]
  · simp [request_lock, h, hold_after]

/-- Replacing caller `i` by a caller that is as expected keeps all callers as
expected; the number of holding callers changes by the difference of the two. -/
lemma callers_set (l : List Caller) (i : Nat) (c c1 : Caller)
    (hi : l[i]? = some c) (hall : ∀ d ∈ l, caller_ok d) (hok : caller_ok c1) :
    (∀ d ∈ l.set i c1, caller_ok d) ∧
    ((l.set i c1).countP (fun d => d.holding) : Int) + ((if c.holding then 1 else 0 : Nat) : Int)
      = (l.countP (fun d => d.holding) : Int) + ((if c1.holding then 1 else 0 : Nat) : Int) := by
  constructor
  · intro d hd
    rcases List.mem_or_eq_of_mem_set hd with hmem | heq
    · exact hall d hmem
    · rw [heq]; exact hok
  · have := countP_set_add (fun d : Caller => d.holding) l i c c1 hi
    simp only at this
    exact_mod_cast this

/-- Every move preserves the invariant. -/
lemma step_inv (w : Nat) (s s1 : Sys) (a : Action) (hinv : s.inv)
    (hs : step w s a = some s1) : s1.inv := by
  obtain ⟨hnn, hsum, hcyc, hcall⟩ := hinv
  simp only [holders, Nat.cast_add] at hsum
  cases a with
  | cyc_begin now st =>
    simp only [step] at hs
    split at hs
    · rename_i hp
      simp only [Option.some.injEq] at hs
      subst hs
      rw [hp] at hcyc
      simp only [hold_after, Option.some.injEq] at hcyc
      refine ⟨hnn, ?_, ?_, hcall⟩
      · simp only [holders, Nat.cast_add]
        exact hsum
      · simp only [hcyc]
        exact run_iteration_hold now st s.g
    · exact absurd hs (by simp)
  | cyc_exec =>
    simp only [step] at hs
    split at hs
    · exact absurd hs (by simp)
    · rename_i op rest hp
      split at hs
      · exact absurd hs (by simp)
      · rename_i r he
        simp only [Option.some.injEq] at hs
        subst hs
        rw [hp] at hcyc
        obtain ⟨h1, h2, h3⟩ :=
          exec_op_preserves s.sem s.cyc_holding op rest false r hnn hcyc he
        refine ⟨h2, ?_, h1, hcall⟩
        simp only [holders, Nat.cast_add]
        omega
  | call_request j now =>
    simp only [step] at hs
    split at hs
    · rename_i c hj
      split at hs
      · rename_i hph
        simp only [Option.some.injEq] at hs
        subst hs
        have hc : caller_ok c := hcall c (List.mem_iff_getElem?.mpr ⟨j, hj⟩)
        obtain ⟨ph, pend, hold⟩ := c
        simp only at hph
        subst hph
        simp only [caller_ok] at hc
        obtain ⟨_, hhold⟩ := hc
        subst hhold
        have hnew : caller_ok ⟨Phase.in_request (request_lock w now s.g).1,
            (request_lock w now s.g).2.2, false⟩ := by
          simp only [caller_ok]
          exact request_lock_hold w now s.g
        obtain ⟨hall, hcnt⟩ := callers_set s.callers j _ _ hj hcall hnew
        refine ⟨hnn, ?_, hcyc, hall⟩
        simp only [holders, Nat.cast_add]
        simp only at hcnt
        omega
      · exact absurd hs (by simp)
    · exact absurd hs (by simp)
  | call_exec j =>
    simp only [step] at hs
    split at hs
    · rename_i c hj
      split at hs
      · exact absurd hs (by simp)
      · rename_i op rest hp
        split at hs
        · exact absurd hs (by simp)
        · rename_i r he
          simp only [Option.some.injEq] at hs
          subst hs
          have hc : caller_ok c := hcall c (List.mem_iff_getElem?.mpr ⟨j, hj⟩)
          obtain ⟨ph, pend, hold⟩ := c
          simp only at hp he
          subst hp
          have hstep : ∃ x, hold_after hold (op :: rest) = some x ∧
              (hold_after r.2 rest = some x → caller_ok ⟨ph, rest, r.2⟩) := by
            cases ph with
            | idle => simp [caller_ok] at hc
            | granted => simp [caller_ok] at hc
            | in_request ret => exact ⟨_, hc, fun h => h⟩
            | in_release => exact ⟨_, hc, fun h => h⟩
          obtain ⟨x, hx, hmk⟩ := hstep
          obtain ⟨h1, h2, h3⟩ := exec_op_preserves s.sem hold op rest x r hnn hx he
          obtain ⟨hall, hcnt⟩ := callers_set s.callers j _ _ hj hcall (hmk h1)
          refine ⟨h2, ?_, hcyc, hall⟩
          simp only [holders, Nat.cast_add]
          simp only at hcnt
          omega
    · exact absurd hs (by simp)
  | call_return j =>
    simp only [step] at hs
    split at hs
    · rename_i c hj
      have hc : caller_ok c := hcall c (List.mem_iff_getElem?.mpr ⟨j, hj⟩)
      obtain ⟨ph, pend, hold⟩ := c
      split at hs
      · rename_i hp
        simp only at hp
        subst hp
        split at hs
        · rename_i ret hph
          simp only at hph
          subst hph
          simp only [Option.some.injEq] at hs
          subst hs
          simp only [caller_ok, hold_after, Option.some.injEq] at hc
          have hnew : caller_ok ⟨if ret = 0 then Phase.granted else Phase.idle, [], hold⟩ := by
            by_cases hr : ret = 0
            · simp [hr, caller_ok] at hc ⊢
              exact hc
            · simp [hr, caller_ok] at hc ⊢
              exact hc
          obtain ⟨hall, hcnt⟩ := callers_set s.callers j _ _ hj hcall hnew
          refine ⟨hnn, ?_, hcyc, hall⟩
          simp only [holders, Nat.cast_add]
          simp only at hcnt
          omega
        · rename_i hph
          simp only at hph
          subst hph
          simp only [Option.some.injEq] at hs
          subst hs
          simp only [caller_ok, hold_after, Option.some.injEq] at hc
          have hnew : caller_ok ⟨Phase.idle, [], hold⟩ := by
            simp only [caller_ok]
            exact ⟨trivial, hc⟩
          obtain ⟨hall, hcnt⟩ := callers_set s.callers j _ _ hj hcall hnew
          refine ⟨hnn, ?_, hcyc, hall⟩
          simp only [holders, Nat.cast_add]
          simp only at hcnt
          omega
        · exact absurd hs (by simp)
      · exact absurd hs (by simp)
    · exact absurd hs (by simp)
  | call_release j =>
    simp only [step] at hs
    split at hs
    · rename_i c hj
      split at hs
      · rename_i hph
        simp only [Option.some.injEq] at hs
        subst hs
        have hc : caller_ok c := hcall c (List.mem_iff_getElem?.mpr ⟨j, hj⟩)
        obtain ⟨ph, pend, hold⟩ := c
        simp only at hph
        subst hph
        simp only [caller_ok] at hc
        obtain ⟨_, hhold⟩ := hc
        subst hhold
        have hnew : caller_ok ⟨Phase.in_release, (release_lock s.g).2, true⟩ := by
          simp [caller_ok, release_lock, hold_after]
        obtain ⟨hall, hcnt⟩ := callers_set s.callers j _ _ hj hcall hnew
        refine ⟨hnn, ?_, hcyc, hall⟩
        simp only [holders, Nat.cast_add]
        simp only at hcnt
        omega
      · exact absurd hs (by simp)
    · exact absurd hs (by simp)

/-- The invariant holds when the system starts. -/
lemma start_inv (g : Globals) (n : Nat) : (Sys.start g n).inv := by
  refine ⟨by simp [Sys.start], ?_, by simp [Sys.start, hold_after], ?_⟩
  · simp [Sys.start, holders, Caller.fresh, List.countP_replicate]
  · intro c hc
    simp only [Sys.start, List.mem_replicate] at hc
    rw [hc.2]
    simp [Caller.fresh, caller_ok]

/-- The invariant holds after every schedule. -/
lemma run_actions_inv (w : Nat) (acts : List Action) :
    ∀ s s1 : Sys, s.inv → run_actions w s acts = some s1 → s1.inv := by
  induction acts with
  | nil =>
    intro s s1 hinv h
    simp only [run_actions, Option.some.injEq] at h
    rw [← h]
    exact hinv
  | cons a rest ih =>
    intro s s1 hinv h
    simp only [run_actions] at h
    split at h
    · rename_i s2 hs2
      exact ih s2 s1 (step_inv w s s2 a hinv hs2) h
    · exact absurd h (by simp)

/-- C3: in every interleaving of the cyclic task and any number `n` of callers that
use `request_lock` and `release_lock`, started on the semaphore count 1, at most
one execution context holds the lock in every state reached; more precisely the
semaphore count plus the number of holders is always 1 and the count never
negative.  The count 1 is the one `init_mod` passes in its single call of
`rt_sem_init`. -/
theorem mutual_exclusion (w n : Nat) (g : Globals) (acts : List Action) (s : Sys)
    (h : run_actions w (Sys.start g n) acts = some s) :
    holders s ≤ 1 ∧ 0 ≤ s.sem ∧ s.sem + (holders s : Int) = 1 ∧
    (Sys.start g n).sem = 1 ∧
    ∀ (uw : Nat) (env : InitEnv) (g0 : Globals),
      (init_mod uw env g0).2.2.filterMap sem_init_value = [1] := by
  obtain ⟨hnn, hsum, _, _⟩ := run_actions_inv w acts (Sys.start g n) s (start_inv g n) h
  refine ⟨?_, hnn, hsum, rfl, ?_⟩
  · omega
  · intro uw env g0
    simp only [init_mod]
    split_ifs <;>
      simp [sem_init_value, out_stop_task, out_stop_timer, out_release_master, out_return,
        List.filterMap_cons]

/-- Witness of C3: caller 0 is granted the lock, the cyclic task starts a pass and
blocks on its first wait, caller 1 asks and blocks as well, caller 0 releases, and
the cyclic task gets the lock. -/
theorem mutual_exclusion_witness :
    ∃ s : Sys,
      run_actions 64 (Sys.start { Globals.initial with t_critical := 100 } 2)
        [Action.call_request 0 5, Action.call_exec 0, Action.call_exec 0,
         Action.call_return 0, Action.cyc_begin 7 status_zero, Action.cyc_exec,
         Action.call_request 1 50, Action.call_exec 1,
         Action.call_release 0, Action.call_exec 0, Action.call_return 0,
         Action.cyc_exec] = some s ∧
      s.cyc_holding = true ∧ holders s ≤ 1 :=
  ⟨_, rfl, rfl,
    (mutual_exclusion 64 2 { Globals.initial with t_critical := 100 }
      [Action.call_request 0 5, Action.call_exec 0, Action.call_exec 0,
       Action.call_return 0, Action.cyc_begin 7 status_zero, Action.cyc_exec,
       Action.call_request 1 50, Action.call_exec 1,
       Action.call_release 0, Action.call_exec 0, Action.call_return 0,
       Action.cyc_exec] _ rfl).1⟩

end RtaiSample
